import Mathlib

/-!
# The Markdown formatter of the HTTP API reference generator

A shallow embedding of `markdown.go` and the properties of its text blocks.

Go strings are modelled as `List Char`: a string is the sequence of its
Unicode code points (valid UTF-8 text).  A `bytes.Buffer` that is only
appended to and finally read with `String()` is modelled by the list it holds.
A call `fmt.Fprintf(buf, f, s...)` whose format `f` is a literal in which the
only verbs are plain `%s` and whose operands are strings appends `f` with each
`%s` replaced by its operand.  A call whose format is a computed string and
that has no operand is modelled by `Fprintf0`.
-/

namespace Docs

/-! ## Data model -/

/-- Modelled from the spec: the declaration of the `Argument` record is not in
`markdown.go`; the fields are those of the data model (Name, Type, Description,
Default, Required, Endpoint).  The field `Type` is written `Type_`. -/
structure Argument where
  Name : List Char
  Type_ : List Char
  Description : List Char
  Default : List Char
  Required : Bool
  Endpoint : List Char
deriving DecidableEq, Repr

/-- Modelled from the spec: the declaration of the `Endpoint` record is not in
`markdown.go`; the fields are those of the data model (Name, Description,
Arguments, Options). -/
structure Endpoint where
  Name : List Char
  Description : List Char
  Arguments : List Argument
  Options : List Argument
deriving DecidableEq, Repr

/-! ## The part of package `strings` used by the formatter -/

/-- Go `strings.HasPrefix(s, pre)`. -/
def HasPrefix (s pre : List Char) : Bool :=
  pre.isPrefixOf s

/-- Go `strings.TrimPrefix(s, pre)`: `s` without the leading `pre` when `s`
starts with it, `s` itself otherwise. -/
def TrimPrefix (s pre : List Char) : List Char :=
  if HasPrefix s pre then s.drop pre.length else s

/-- The scan of `strings.Replace(s, old, new, -1)` for a non-empty `old`: the
first argument counts the characters of a match that are still to be skipped. -/
def replaceAllAux (old new : List Char) : Nat → List Char → List Char
  | _, [] => []
  | skip + 1, _ :: t => replaceAllAux old new skip t
  | 0, c :: t =>
    if old.isPrefixOf (c :: t) then new ++ replaceAllAux old new (old.length - 1) t
    else c :: replaceAllAux old new 0 t

/-- Go `strings.Replace(s, old, new, -1)`: every non-overlapping occurrence of
`old`, found from the left, is replaced by `new`.  For an empty `old` Go
inserts `new` before the first character and after every character. -/
def Replace (s old new : List Char) : List Char :=
  if old = new then s
  else if old = [] then new ++ s.flatMap (fun c => c :: new)
  else replaceAllAux old new 0 s

/-- Go `strings.Join(elems, sep)`. -/
def Join (elems : List (List Char)) (sep : List Char) : List Char :=
  match elems with
  | [] => []
  | [e] => e
  | e :: rest => e ++ sep ++ Join rest sep

/-! ## GenerateIndex -/

/-- Go `(*MarkdownFormatter).GenerateIndex`. -/
def GenerateIndex (endps : List Endpoint) : List Char :=
  let buf := "## Index\n\n".toList
  let buf := endps.foldl (fun buf endp =>
    buf ++ ("  *  [".toList ++ TrimPrefix endp.Name "/api/v0".toList ++ "](#".toList
      ++ Replace (TrimPrefix endp.Name "/".toList) "/".toList "-".toList ++ ")\n".toList)) buf
  buf ++ "\n\n## Endpoints\n\n".toList

/-! ## The part of package `html` used by the formatter -/

/-- Go `html.EscapeString`: the five characters `&`, apostrophe, `<`, `>` and
the double quote are replaced by `&amp;`, `&#39;`, `&lt;`, `&gt;`, `&#34;`. -/
def EscapeString (s : List Char) : List Char :=
  s.flatMap fun c =>
    if c = '&' then "&amp;".toList
    else if c = Char.ofNat 39 then "&#39;".toList
    else if c = '<' then "&lt;".toList
    else if c = '>' then "&gt;".toList
    else if c = '"' then "&#34;".toList
    else [c]

/-! ## The pattern `fixDesc` -/

/-- The character class `[a-zA-z0-9-_]` of the pattern `fixDesc`: the ranges
`a-z`, `A-z` (as written in the source) and `0-9`, and the two characters `-`
and `_`. -/
def fixDescClass (c : Char) : Bool :=
  ('a' ≤ c ∧ c ≤ 'z') ∨ ('A' ≤ c ∧ c ≤ 'z') ∨ ('0' ≤ c ∧ c ≤ '9') ∨ c = '-' ∨ c = '_'

/-- The tail ` ?\.` of the pattern `fixDesc` at the start of `s`: the number of
characters it matches, the optional blank being taken when present. -/
def fixDescTail : List Char → Option Nat
  | ' ' :: '.' :: _ => some 2
  | '.' :: _ => some 1
  | _ => none

/-- A match of the pattern `" Default: [a-zA-z0-9-_]+ ?\\."` at the start of
`s`: the length of the match, or `none`.  The run `[...]+` is greedy; a shorter
run is never followed by a blank or a period (the next character is in the
class), so the greedy run is the only candidate. -/
def fixDescMatch (s : List Char) : Option Nat :=
  if " Default: ".toList.isPrefixOf s then
    let r := s.drop " Default: ".toList.length
    let tok := r.takeWhile fixDescClass
    if tok = [] then none
    else (fixDescTail (r.dropWhile fixDescClass)).map
      (fun k => " Default: ".toList.length + tok.length + k)
  else none

/-- The scan of `fixDesc.ReplaceAll(src, "")`: at each position, from the left,
a match of the pattern is dropped and the scan goes on after it; a character
at which no match starts is kept.  The first argument counts the characters of
a match that are still to be dropped. -/
def fixDescReplaceAllAux : Nat → List Char → List Char
  | _, [] => []
  | skip + 1, _ :: t => fixDescReplaceAllAux skip t
  | 0, c :: t =>
    match fixDescMatch (c :: t) with
    | some n => fixDescReplaceAllAux (n - 1) t
    | none => c :: fixDescReplaceAllAux 0 t

/-- Go `fixDesc.ReplaceAll([]byte(src), []byte(""))`. -/
def fixDescReplaceAll (src : List Char) : List Char :=
  fixDescReplaceAllAux 0 src

/-! ## genArgument -/

/-- Go `genArgument`. -/
def genArgument (arg : Argument) (aliasToArg : Bool) : List Char :=
  if arg.Type_ = "file".toList then "\n".toList
  else
    let alias_ := if aliasToArg then "arg".toList else arg.Name
    let fixedDescription := fixDescReplaceAll arg.Description
    let fixedDescription := EscapeString fixedDescription
    let buf := "- `".toList ++ alias_ ++ "` [".toList ++ arg.Type_ ++ "]: ".toList
      ++ fixedDescription
    let buf := if arg.Default.length > 0
      then buf ++ (" Default: `".toList ++ arg.Default ++ "`.".toList) else buf
    let buf := if arg.Required
      then buf ++ " Required: **yes**.".toList else buf ++ " Required: no.".toList
    buf ++ "\n".toList

/-! ## `fmt.Fprintf` with a computed format and no operand -/

/-- Go `fmt`: the flag characters read after `%`. -/
def isFlag (c : Char) : Bool :=
  c = '#' ∨ c = '0' ∨ c = '+' ∨ c = '-' ∨ c = ' '

/-- Go `fmt.tooLarge`: the bound `1e6` on a width, precision or index. -/
def tooLarge (x : Nat) : Bool :=
  x > 1000000

/-- The loop of Go `fmt.parsenum` over the slice it is given: the number read
so far, whether a digit was read, and the text left.  On overflow the result
is `(0, false)` with nothing left (the Go code returns `end`). -/
def parsenumAux : Nat → Bool → List Char → Nat × Bool × List Char
  | num, isnum, [] => (num, isnum, [])
  | num, isnum, c :: t =>
    if '0' ≤ c ∧ c ≤ '9' then
      if tooLarge num then (0, false, [])
      else parsenumAux (num * 10 + (c.toNat - '0'.toNat)) true t
    else (num, isnum, c :: t)

/-- Go `fmt.parsenum(s, start, end)` on the slice `s[start:end]`. -/
def parsenum (s : List Char) : Nat × Bool × List Char :=
  parsenumAux 0 false s

/-- Go `fmt.parseArgNumber` on a format that starts with `[`: the text left
after the bracketed index and whether the index is well formed.  There must be
at least the three characters `[n]`; a failure without a closing bracket
consumes the opening bracket only. -/
def parseArgNumber (format : List Char) : List Char × Bool :=
  if format.length < 3 then (format.drop 1, false)
  else
    let body := format.drop 1
    let inner := body.takeWhile (fun c => c ≠ ']')
    match body.dropWhile (fun c => c ≠ ']') with
    | [] => (format.drop 1, false)
    | _ :: rest =>
      let r := parsenum inner
      if !r.2.1 || r.2.2 ≠ [] then (rest, false) else (rest, true)

/-- Go `(*pp).argNumber` when the call has no operand: the text left, whether
an index was found, and the flag `goodArgNum`.  No index is below the number
of operands, so a bracket always clears `goodArgNum`. -/
def argNumber (format : List Char) (goodArgNum : Bool) : List Char × Bool × Bool :=
  match format with
  | '[' :: _ =>
    let r := parseArgNumber format
    (r.1, r.2, false)
  | _ => (format, false, goodArgNum)

/-- One verb of Go `(*pp).doPrintf` when the call has no operand: `t` is the
format after the `%`; the result is the text written and the format left. -/
def doVerb (t : List Char) : List Char × List Char :=
  -- flags
  let s := t.dropWhile isFlag
  -- explicit argument index
  let (s, afterIndex, good) := argNumber s true
  -- width
  let (out, s, afterIndex, good) :=
    match s with
    | '*' :: r => ("%!(BADWIDTH)".toList, r, false, good)
    | _ =>
      let w := parsenum s
      (([] : List Char), w.2.2, afterIndex, good && !(afterIndex && w.2.1))
  -- precision
  let (out, s, afterIndex, good) :=
    match s with
    | '.' :: r =>
      let good := good && !afterIndex
      let (r, afterIndex, good) := argNumber r good
      match r with
      | '*' :: r1 => (out ++ "%!(BADPREC)".toList, r1, false, good)
      | _ => (out, (parsenum r).2.2, afterIndex, good)
    | _ => (out, s, afterIndex, good)
  let (s, _, good) := if !afterIndex then argNumber s good else (s, afterIndex, good)
  match s with
  | [] => (out ++ "%!(NOVERB)".toList, [])
  | verb :: r =>
    if verb = '%' then (out ++ ['%'], r)
    else if !good then (out ++ "%!".toList ++ [verb] ++ "(BADINDEX)".toList, r)
    else (out ++ "%!".toList ++ [verb] ++ "(MISSING)".toList, r)

/-- The loop of Go `(*pp).doPrintf` when the call has no operand.  The first
argument counts the characters of a verb that are still to be passed over. -/
def doPrintfAux : Nat → List Char → List Char
  | _, [] => []
  | skip + 1, _ :: t => doPrintfAux skip t
  | 0, c :: t =>
    if c = '%' then
      let r := doVerb t
      r.1 ++ doPrintfAux (t.length - r.2.length) t
    else c :: doPrintfAux 0 t

/-- Go `fmt.Fprintf(buf, format)` with no operand: the text appended to the
buffer. -/
def Fprintf0 (format : List Char) : List Char :=
  doPrintfAux 0 format

/-! ## GenerateArgumentsBlock -/

/-- Go `(*MarkdownFormatter).GenerateArgumentsBlock`.  The text returned by
`genArgument` is passed to `fmt.Fprintf` as the format. -/
def GenerateArgumentsBlock (args opts : List Argument) : List Char :=
  let buf := Fprintf0 "### Arguments\n\n".toList
  let buf := if args.length + opts.length = 0
    then buf ++ Fprintf0 "This endpoint takes no arguments.\n".toList else buf
  let buf := args.foldl (fun buf arg => buf ++ Fprintf0 (genArgument arg true)) buf
  let buf := opts.foldl (fun buf opt => buf ++ Fprintf0 (genArgument opt false)) buf
  buf ++ Fprintf0 "\n".toList

/-! ## GenerateBodyBlock -/

/-- The first loop of Go `GenerateBodyBlock`: the first argument whose type is
`file`, the loop stopping there. -/
def findBodyArg : List Argument → Option Argument
  | [] => none
  | arg :: rest => if arg.Type_ = "file".toList then some arg else findBodyArg rest

/-- The text that Go `GenerateBodyBlock` passes to `fmt.Fprintln` for the
endpoint `/api/v0/add`. -/
def addDocumentation : List Char :=
  "\n\n".toList
  ++ "The `add` command not only allows adding files, but also uploading directories and complex hierarchies.\n\n".toList
  ++ "This happens as follows: Every part in the multipart request is a *directory* or a *file* to be added to IPFS.\n\n".toList
  ++ "Directory parts have a special content type `application/x-directory`. These parts do not carry any data. The part headers look as follows:\n\n".toList
  ++ "```\n".toList
  ++ "Content-Disposition: form-data; name=\"file\"; filename=\"folderName\"\n".toList
  ++ "Content-Type: application/x-directory\n".toList
  ++ "```\n\n".toList
  ++ "File parts carry the file payload after the following headers:\n\n".toList
  ++ "```\n".toList
  ++ "Abspath: /absolute/path/to/file.txt\n".toList
  ++ "Content-Disposition: form-data; name=\"file\"; filename=\"folderName%2Ffile.txt\"\n".toList
  ++ "Content-Type: application/octet-stream\n\n".toList
  ++ "...contents...\n".toList
  ++ "```\n\n".toList
  ++ "The above file includes its path in the \"folderName/file.txt\" hierarchy and IPFS will therefore be able to add it inside \"folderName\". The parts declaring the directories are optional when they have files inside and will be inferred from the filenames. In any case, a depth-first traversal of the directory tree is recommended to order the different parts making the request.\n\n".toList
  ++ "The `Abspath` header is included for filestore/urlstore features that are enabled with the `nocopy` option and it can be set to the location of the file in the filesystem (within the IPFS root), or to its full web URL.\n".toList

/-- Go `(*MarkdownFormatter).GenerateBodyBlock`. -/
def GenerateBodyBlock (args : List Argument) : List Char :=
  match findBodyArg args with
  | some bodyArg =>
    let buf := "\n### Request Body\n\nArgument `".toList ++ bodyArg.Name
      ++ "` is of file type. This endpoint expects one or several files (depending on the command) in the body of the request as 'multipart/form-data'.\n\n".toList
    -- Special documentation for /add
    let buf := if bodyArg.Endpoint = "/api/v0/add".toList
      then buf ++ (addDocumentation ++ "\n".toList) else buf
    buf
  | none => []

/-! ## GenerateExampleBlock -/

/-- The first loop of Go `GenerateExampleBlock`: the variables `queryargs` and
`hasFileArg` after the positional arguments. -/
def exampleArguments (arguments : List Argument) : List (List Char) × Bool :=
  arguments.foldl (fun st arg =>
    let q := "arg=".toList
    if arg.Type_ ≠ "file".toList then (st.1 ++ [q ++ ("<".toList ++ arg.Name ++ ">".toList)], st.2)
    else (st.1, true)) ([], false)

/-- The second loop of Go `GenerateExampleBlock`: `queryargs` after the
options. -/
def exampleOptions (queryargs : List (List Char)) (options : List Argument) :
    List (List Char) :=
  options.foldl (fun queryargs opt =>
    let q := opt.Name ++ "=".toList
    let q := if opt.Default.length > 0 then q ++ opt.Default else q ++ "<value>".toList
    queryargs ++ [q]) queryargs

/-- Go `(*MarkdownFormatter).GenerateExampleBlock`. -/
def GenerateExampleBlock (endp : Endpoint) : List Char :=
  let buf := "### cURL Example\n\n".toList ++ "`".toList ++ "curl -X POST ".toList
  -- Assemble arguments which are not of type file
  let st := exampleArguments endp.Arguments
  let hasFileArg := st.2
  -- Assemble options
  let queryargs := exampleOptions st.1 endp.Options
  let buf := if hasFileArg then buf ++ "-F file=@myfile ".toList else buf
  let buf := buf ++ ("\"http://127.0.0.1:5001".toList ++ endp.Name)
  let buf := if queryargs.length > 0
    then buf ++ ("?".toList ++ Join queryargs "&".toList ++ "\"".toList)
    else buf ++ "\"".toList
  buf ++ "`\n\n---\n".toList

/-! ## GenerateEndpointBlock and GenerateResponseBlock -/

/-- Go `(*MarkdownFormatter).GenerateEndpointBlock`: the format is the literal
of a blank line, `## %s`, a blank line, `%s` and three line ends. -/
def GenerateEndpointBlock (endp : Endpoint) : List Char :=
  "\n## ".toList ++ endp.Name ++ "\n\n".toList ++ EscapeString endp.Description
    ++ "\n\n\n".toList

/-- Go `(*MarkdownFormatter).GenerateResponseBlock`: the heading goes through
`fmt.Fprintf`, the fenced block through `WriteString`. -/
def GenerateResponseBlock (response : List Char) : List Char :=
  let buf := Fprintf0
    "\n### Response\n\nOn success, the call to this endpoint will return with 200 and the following body:\n\n".toList
  buf ++ ("```json\n".toList ++ response ++ "\n```\n\n".toList)

/-! ## Statements in the words of the specification -/

/-- The text `s` with a leading `p` removed when `s` begins with `p`; `none`
when it does not. -/
def removeLeading? : List Char → List Char → Option (List Char)
  | [], s => some s
  | _ :: _, [] => none
  | p :: ps, c :: cs => if p = c then removeLeading? ps cs else none

/-- The text `s` with a leading `p` removed, if present. -/
def removeLeading (p s : List Char) : List Char :=
  (removeLeading? p s).getD s

/-- The visible text of an index entry: the endpoint name with a leading
`/api/v0` removed, if present. -/
def indexText (name : List Char) : List Char :=
  removeLeading "/api/v0".toList name

/-- The anchor of an index entry: the endpoint name with one leading `/`
removed, if present, and every remaining `/` replaced by `-`. -/
def indexAnchor (name : List Char) : List Char :=
  (removeLeading "/".toList name).map (fun c => if c = '/' then '-' else c)

/-- Whether an entry is file-typed: its `Type` is `file`. -/
def fileTyped (a : Argument) : Bool :=
  decide (a.Type_ = "file".toList)

/-- The clause for the default value of an argument line: nothing when
`Default` is empty. -/
def defaultClause (a : Argument) : List Char :=
  if a.Default = [] then [] else " Default: `".toList ++ a.Default ++ "`.".toList

/-- The clause for the `Required` flag of an argument line. -/
def requiredClause (a : Argument) : List Char :=
  if a.Required then " Required: **yes**.".toList else " Required: no.".toList

/-- The line of the arguments block for an entry, with the alias `al` and the
description text `desc`. -/
def argumentLine (al desc : List Char) (a : Argument) : List Char :=
  "- `".toList ++ al ++ "` [".toList ++ a.Type_ ++ "]: ".toList ++ desc
    ++ defaultClause a ++ requiredClause a ++ "\n".toList

/-- The cleaned, HTML-escaped description of an entry. -/
def cleanedDescription (a : Argument) : List Char :=
  EscapeString (fixDescReplaceAll a.Description)

/-- The arguments block as the specification words it, for lists without a
file-typed entry that are not both empty: the heading, one line per positional
argument under the alias `arg`, one line per option under its own name, and a
closing newline. -/
def specArgumentsBlock (args opts : List Argument) : List Char :=
  "### Arguments\n\n".toList
    ++ (args.map (fun a => argumentLine "arg".toList (cleanedDescription a) a)).flatten
    ++ (opts.map (fun a => argumentLine a.Name (cleanedDescription a) a)).flatten
    ++ "\n".toList

/-- A positional argument whose description ends in a percent sign. -/
def percentArgument : Argument :=
  ⟨"n".toList, "int".toList, "100%".toList, [], false, "/api/v0/x".toList⟩

/-- A file-typed argument. -/
def sampleFileArgument : Argument :=
  ⟨"path".toList, "file".toList, "The file.".toList, [], true, "/api/v0/add".toList⟩

/-- An argument that is not file-typed. -/
def sampleIntArgument : Argument :=
  ⟨"n".toList, "int".toList, "A count.".toList, [], false, "/api/v0/add".toList⟩

/-- The basic paragraph of the request-body block for the file-typed argument
named `name`. -/
def requestBodyParagraph (name : List Char) : List Char :=
  "\n### Request Body\n\nArgument `".toList ++ name
    ++ "` is of file type. This endpoint expects one or several files (depending on the command) in the body of the request as 'multipart/form-data'.\n\n".toList

/-- A second file-typed argument, of another endpoint. -/
def sampleDataArgument : Argument :=
  ⟨"data".toList, "file".toList, "The data.".toList, [], true, "/api/v0/block/put".toList⟩

/-- The entries of the query string of the example, in the words of the
specification: `arg=<NAME>` for each positional argument that is not
file-typed, then `NAME=DEFAULT` or `NAME=<value>` for each option. -/
def queryEntries (endp : Endpoint) : List (List Char) :=
  (endp.Arguments.filter (fun a => !fileTyped a)).map
      (fun a => "arg=<".toList ++ a.Name ++ ">".toList)
    ++ endp.Options.map (fun o =>
      if o.Default = [] then o.Name ++ "=<value>".toList
      else o.Name ++ "=".toList ++ o.Default)

/-- The query string of the example: `?` and the entries joined by `&`, or
nothing at all when there is no entry. -/
def queryString (endp : Endpoint) : List Char :=
  if queryEntries endp = [] then []
  else "?".toList ++ List.intercalate "&".toList (queryEntries endp)

/-- The option `encoding` with the default `json`. -/
def encodingOption : Argument :=
  ⟨"encoding".toList, "string".toList, "The encoding.".toList, "json".toList, false,
    "/api/v0/add".toList⟩

/-- An endpoint with one file-typed positional argument and the option
`encoding`. -/
def sampleUploadEndpoint : Endpoint :=
  ⟨"/api/v0/add".toList, "Add a file.".toList, [sampleFileArgument], [encodingOption]⟩

/-- The number of positions of a text at which the text `p` starts: the
number of occurrences of a non-empty `p`. -/
def countOcc (p : List Char) : List Char → Nat
  | [] => 0
  | c :: t => (if p.isPrefixOf (c :: t) then 1 else 0) + countOcc p t

/-- An option without default value whose description mentions a default in
a form that the pattern `fixDesc` does not match. -/
def chunkerOption : Argument :=
  ⟨"chunker".toList, "string".toList, "Chunk size. Default: `256 KiB`.".toList, [], false,
    "/api/v0/add".toList⟩

/-- The characters of a default token in the words of the specification:
ASCII letters, digits, the hyphen and the underscore. -/
def specTokenChar (c : Char) : Bool :=
  ('a' ≤ c ∧ c ≤ 'z') ∨ ('A' ≤ c ∧ c ≤ 'Z') ∨ ('0' ≤ c ∧ c ≤ '9') ∨ c = '-' ∨ c = '_'

/-- The description `d` contains a substring " Default: TOKEN." whose TOKEN
is a non-empty run of ASCII letters, digits, hyphens and underscores. -/
def HasSpecDefaultClause (d : List Char) : Prop :=
  ∃ pre tok post, tok ≠ [] ∧ (∀ c ∈ tok, specTokenChar c = true)
    ∧ d = pre ++ (" Default: ".toList ++ (tok ++ '.' :: post))

/-- Whether a substring " Default: TOKEN." of the specification starts the
text `s`. -/
def specClauseAt (s : List Char) : Bool :=
  " Default: ".toList.isPrefixOf s
    && (!((s.drop " Default: ".toList.length).takeWhile specTokenChar).isEmpty
      && ((s.drop " Default: ".toList.length).dropWhile specTokenChar).head? == some '.')

/-- The description `d` contains a substring that the pattern `fixDesc`
matches: " Default: ", a non-empty run of characters of the class of the
pattern, an optional blank, and a period. -/
def HasFixDescMatch (d : List Char) : Prop :=
  ∃ pre tok sp post, tok ≠ [] ∧ (∀ c ∈ tok, fixDescClass c = true) ∧ (sp = [] ∨ sp = [' '])
    ∧ d = pre ++ (" Default: ".toList ++ (tok ++ (sp ++ '.' :: post)))

/-- An option whose description gives a default with a blank before the
period. -/
def blankPeriodOption : Argument :=
  ⟨"chunker".toList, "string".toList, "Chunk size. Default: 256 .".toList, [], false,
    "/api/v0/add".toList⟩

/-- An option whose description gives a default of two words. -/
def twoWordOption : Argument :=
  ⟨"layout".toList, "string".toList, "Layout < 3. Default: a b.".toList, [], false,
    "/api/v0/add".toList⟩

/-- The description with every `&` replaced by `&amp;`, every `<` by `&lt;`
and every `>` by `&gt;`. -/
def escapeThree (s : List Char) : List Char :=
  s.flatMap fun c =>
    if c = '&' then "&amp;".toList
    else if c = '<' then "&lt;".toList
    else if c = '>' then "&gt;".toList
    else [c]

/-- The text with every apostrophe replaced by `&#39;` and every double quote
by `&#34;`. -/
def escapeQuotes (s : List Char) : List Char :=
  s.flatMap fun c =>
    if c = Char.ofNat 39 then "&#39;".toList
    else if c = '"' then "&#34;".toList
    else [c]

/-- The five entities that escaping writes. -/
def htmlEntities : List (List Char) :=
  ["&amp;".toList, "&#39;".toList, "&lt;".toList, "&gt;".toList, "&#34;".toList]

/-- Every `&` of the text starts an entity: the text from any `&` on begins
with one of the five entities. -/
def AmpersandsStartEntities (l : List Char) : Prop :=
  ∀ s t, s <:+ l → s = '&' :: t → ∃ e ∈ htmlEntities, e <+: s

/-- An endpoint whose description holds double quotes. -/
def quotedEndpoint : Endpoint :=
  ⟨"/api/v0/id".toList, "Show the \"peer\" id & <more>.".toList, [], []⟩

/-! ## Lemmas on the string functions -/

theorem foldl_append_eq {α : Type} (f : α → List Char) (l : List α) (init : List Char) :
    l.foldl (fun buf x => buf ++ f x) init = init ++ l.flatMap f := by
  induction l generalizing init with
  | nil => simp
  | cons x xs ih => simp [List.foldl_cons, ih, List.flatMap_cons, List.append_assoc]

theorem removeLeading?_eq (p s : List Char) :
    removeLeading? p s = if p.isPrefixOf s then some (s.drop p.length) else none := by
  induction p generalizing s with
  | nil => simp [removeLeading?]
  | cons a as ih =>
    cases s with
    | nil => simp [removeLeading?]
    | cons c cs =>
      by_cases h : a = c
      · subst h
        simp [removeLeading?, ih, List.isPrefixOf]
      · simp [removeLeading?, h, List.isPrefixOf]

theorem TrimPrefix_eq_removeLeading (s p : List Char) :
    TrimPrefix s p = removeLeading p s := by
  unfold TrimPrefix removeLeading HasPrefix
  rw [removeLeading?_eq]
  by_cases h : p.isPrefixOf s <;> simp [h]

theorem replaceAllAux_slash (s : List Char) :
    replaceAllAux ['/'] ['-'] 0 s = s.map (fun c => if c = '/' then '-' else c) := by
  induction s with
  | nil => simp [replaceAllAux]
  | cons c t ih =>
    by_cases h : c = '/'
    · subst h
      simp [replaceAllAux, ih, List.isPrefixOf]
    · have h2 : ('/' == c) = false := by
        simp only [beq_eq_false_iff_ne, ne_eq]
        exact fun e => h e.symm
      simp [replaceAllAux, ih, List.isPrefixOf, h, h2]

theorem Replace_slash (s : List Char) :
    Replace s "/".toList "-".toList = s.map (fun c => if c = '/' then '-' else c) := by
  have h1 : "/".toList = ['/'] := rfl
  have h2 : "-".toList = ['-'] := rfl
  rw [h1, h2]
  unfold Replace
  rw [if_neg (by decide), if_neg (by decide)]
  exact replaceAllAux_slash s

/-! ## Lemmas on the arguments block -/

theorem flatMap_filter_eq {α : Type} (p : α → Bool) (f : α → List Char) (l : List α) :
    (l.filter p).flatMap f = l.flatMap (fun a => if p a then f a else []) := by
  induction l with
  | nil => rfl
  | cons x xs ih => by_cases h : p x <;> simp [List.filter_cons, h, ih]

theorem doPrintfAux_of_no_percent (s : List Char) (h : '%' ∉ s) :
    doPrintfAux 0 s = s := by
  induction s with
  | nil => rfl
  | cons c t ih =>
    have hc : c ≠ '%' := fun e => h (by simp [e])
    have ht : '%' ∉ t := fun e => h (List.mem_cons_of_mem _ e)
    simp [doPrintfAux, hc, ih ht]

/-- A format without a percent sign is written unchanged. -/
theorem Fprintf0_of_no_percent (s : List Char) (h : '%' ∉ s) : Fprintf0 s = s :=
  doPrintfAux_of_no_percent s h

theorem genArgument_file (a : Argument) (b : Bool) (h : fileTyped a = true) :
    genArgument a b = "\n".toList := by
  have h1 : a.Type_ = "file".toList := by simpa [fileTyped] using h
  simp [genArgument, h1]

/-- The line of a non-file entry, as the specification words it. -/
theorem genArgument_eq_argumentLine (a : Argument) (b : Bool) (h : fileTyped a = false) :
    genArgument a b
      = argumentLine (if b then "arg".toList else a.Name) (cleanedDescription a) a := by
  have h1 : ¬ a.Type_ = "file".toList := by simpa [fileTyped] using h
  unfold genArgument argumentLine defaultClause requiredClause cleanedDescription
  rw [if_neg h1]
  by_cases hd : a.Default = []
  · cases hr : a.Required <;> simp [hd, List.append_assoc]
  · have h3 : 0 < a.Default.length := List.length_pos.mpr hd
    cases hr : a.Required <;> simp [hd, h3, List.append_assoc]

theorem GenerateArgumentsBlock_eq (args opts : List Argument) :
    GenerateArgumentsBlock args opts =
      "### Arguments\n\n".toList
      ++ (if args.length + opts.length = 0
          then "This endpoint takes no arguments.\n".toList else [])
      ++ args.flatMap (fun a => Fprintf0 (genArgument a true))
      ++ opts.flatMap (fun a => Fprintf0 (genArgument a false))
      ++ "\n".toList := by
  have e1 : Fprintf0 "### Arguments\n\n".toList = "### Arguments\n\n".toList := by rfl
  have e2 : Fprintf0 "This endpoint takes no arguments.\n".toList
      = "This endpoint takes no arguments.\n".toList := by rfl
  have e3 : Fprintf0 "\n".toList = "\n".toList := by rfl
  unfold GenerateArgumentsBlock
  simp only [foldl_append_eq, e1, e2, e3]
  by_cases h : args.length + opts.length = 0 <;> simp [h, List.append_assoc]

/-- When no rendered line holds a percent sign, the arguments block of lists
without a file-typed entry that are not both empty is the block of the
specification. -/
theorem GenerateArgumentsBlock_of_no_percent (args opts : List Argument)
    (hne : args.length + opts.length ≠ 0)
    (hfa : ∀ a ∈ args, fileTyped a = false) (hfo : ∀ a ∈ opts, fileTyped a = false)
    (hpa : ∀ a ∈ args, '%' ∉ genArgument a true)
    (hpo : ∀ a ∈ opts, '%' ∉ genArgument a false) :
    GenerateArgumentsBlock args opts = specArgumentsBlock args opts := by
  rw [GenerateArgumentsBlock_eq, if_neg hne]
  unfold specArgumentsBlock
  have ha : args.flatMap (fun a => Fprintf0 (genArgument a true))
      = (args.map (fun a => argumentLine "arg".toList (cleanedDescription a) a)).flatten := by
    rw [List.flatMap]
    congr 1
    apply List.map_congr_left
    intro a ha
    rw [Fprintf0_of_no_percent _ (hpa a ha), genArgument_eq_argumentLine a true (hfa a ha)]
    simp
  have ho : opts.flatMap (fun a => Fprintf0 (genArgument a false))
      = (opts.map (fun a => argumentLine a.Name (cleanedDescription a) a)).flatten := by
    rw [List.flatMap]
    congr 1
    apply List.map_congr_left
    intro a ha
    rw [Fprintf0_of_no_percent _ (hpo a ha), genArgument_eq_argumentLine a false (hfo a ha)]
    simp
  rw [ha, ho]
  simp

/-! ## Lemmas on the request-body block -/

theorem isInfix_append_right (a : List Char) {l b : List Char} (h : l <:+: b) :
    l <:+: a ++ b :=
  h.trans (List.suffix_append a b).isInfix

theorem isInfix_append_left {l a : List Char} (b : List Char) (h : l <:+: a) :
    l <:+: a ++ b :=
  h.trans (List.prefix_append a b).isInfix

theorem findBodyArg_split (pre post : List Argument) (f : Argument)
    (hpre : ∀ a ∈ pre, fileTyped a = false) (hf : fileTyped f = true) :
    findBodyArg (pre ++ f :: post) = some f := by
  induction pre with
  | nil =>
    have h1 : f.Type_ = "file".toList := by simpa [fileTyped] using hf
    simp [findBodyArg, h1]
  | cons x xs ih =>
    have hx : ¬ x.Type_ = "file".toList := by
      have := hpre x (List.mem_cons_self _ _)
      simpa [fileTyped] using this
    have ih2 := ih (fun a ha => hpre a (List.mem_cons_of_mem _ ha))
    simp only [List.cons_append, findBodyArg, if_neg hx]
    exact ih2

theorem findBodyArg_eq_none (args : List Argument) :
    findBodyArg args = none ↔ ∀ a ∈ args, fileTyped a = false := by
  induction args with
  | nil => simp [findBodyArg]
  | cons x xs ih =>
    by_cases hx : x.Type_ = "file".toList
    · simp [findBodyArg, hx, fileTyped, -String.toList]
    · simp [findBodyArg, hx, fileTyped, ih, -String.toList]

theorem GenerateBodyBlock_eq (args : List Argument) :
    GenerateBodyBlock args =
      match findBodyArg args with
      | some f => requestBodyParagraph f.Name
          ++ (if f.Endpoint = "/api/v0/add".toList then addDocumentation ++ "\n".toList else [])
      | none => [] := by
  unfold GenerateBodyBlock requestBodyParagraph
  cases findBodyArg args with
  | none => rfl
  | some f =>
    by_cases h : f.Endpoint = "/api/v0/add".toList
    · simp only [h, if_true]
    · simp only [h, if_false, List.append_nil]

theorem requestBodyParagraph_ne_nil (name : List Char) : requestBodyParagraph name ≠ [] := by
  unfold requestBodyParagraph
  intro h
  have h1 := (List.append_eq_nil.mp (List.append_eq_nil.mp h).1).1
  exact absurd h1 (by decide)

theorem requestBodyParagraph_start (name : List Char) :
    "\n### Request Body\n\nArgument `".toList ++ name ++ "` is of file type.".toList
      <+: requestBodyParagraph name := by
  unfold requestBodyParagraph
  rw [List.append_assoc, List.append_assoc]
  apply (List.prefix_append_right_inj _).mpr
  apply (List.prefix_append_right_inj _).mpr
  exact ⟨" This endpoint expects one or several files (depending on the command) in the body of the request as 'multipart/form-data'.\n\n".toList, by rfl⟩

/-! ## Lemmas on the example block -/

theorem Join_eq_intercalate (sep : List Char) (l : List (List Char)) :
    Join l sep = List.intercalate sep l := by
  induction l with
  | nil => rfl
  | cons x xs ih =>
    cases xs with
    | nil => simp [Join, List.intercalate]
    | cons y ys =>
      have hJ : Join (x :: y :: ys) sep = x ++ sep ++ Join (y :: ys) sep := rfl
      rw [hJ, ih]
      simp [List.intercalate, List.intersperse, List.append_assoc]

theorem exampleArguments_foldl (args : List Argument) (st : List (List Char) × Bool) :
    args.foldl (fun st arg =>
      let q := "arg=".toList
      if arg.Type_ ≠ "file".toList
        then (st.1 ++ [q ++ ("<".toList ++ arg.Name ++ ">".toList)], st.2)
        else (st.1, true)) st
      = (st.1 ++ (args.filter (fun a => !fileTyped a)).map
            (fun a => "arg=".toList ++ ("<".toList ++ a.Name ++ ">".toList)),
          st.2 || args.any fileTyped) := by
  induction args generalizing st with
  | nil => simp
  | cons x xs ih =>
    rw [List.foldl_cons, ih]
    by_cases hx : x.Type_ = "file".toList
    · simp [hx, fileTyped, -String.toList]
    · simp [hx, fileTyped, List.append_assoc, -String.toList]

theorem exampleArguments_eq (args : List Argument) :
    exampleArguments args
      = ((args.filter (fun a => !fileTyped a)).map
            (fun a => "arg=".toList ++ ("<".toList ++ a.Name ++ ">".toList)),
          args.any fileTyped) := by
  unfold exampleArguments
  rw [exampleArguments_foldl]
  simp

theorem exampleOptions_eq (opts : List Argument) (q : List (List Char)) :
    exampleOptions q opts
      = q ++ opts.map (fun o =>
          if o.Default = [] then o.Name ++ "=".toList ++ "<value>".toList
          else o.Name ++ "=".toList ++ o.Default) := by
  unfold exampleOptions
  induction opts generalizing q with
  | nil => simp
  | cons x xs ih =>
    rw [List.foldl_cons, ih]
    by_cases hd : x.Default = []
    · simp [hd, List.append_assoc, -String.toList]
    · have h3 : 0 < x.Default.length := List.length_pos.mpr hd
      simp [hd, h3, List.append_assoc, -String.toList]

/-- The example block as one text: the command, the upload flag when a
positional argument is file-typed, and the quoted address. -/
theorem GenerateExampleBlock_eq (endp : Endpoint) :
    GenerateExampleBlock endp =
      "### cURL Example\n\n`curl -X POST ".toList
      ++ ((if endp.Arguments.any fileTyped then "-F file=@myfile ".toList else [])
      ++ ('"' :: ("http://127.0.0.1:5001".toList ++ endp.Name
      ++ (if 0 < (exampleOptions (exampleArguments endp.Arguments).1 endp.Options).length
          then "?".toList
            ++ Join (exampleOptions (exampleArguments endp.Arguments).1 endp.Options) "&".toList
          else [])
      ++ "\"`\n\n---\n".toList))) := by
  have h2 : (exampleArguments endp.Arguments).2 = endp.Arguments.any fileTyped := by
    rw [exampleArguments_eq]
  unfold GenerateExampleBlock
  simp only [h2]
  generalize exampleOptions (exampleArguments endp.Arguments).1 endp.Options = q
  cases endp.Arguments.any fileTyped <;> by_cases hq : 0 < q.length <;>
    simp [hq, List.append_assoc]

/-! ## Lemmas on occurrences -/

theorem isPrefixOf_append_sep (p x y : List Char) (d : Char) (hd : d ∉ p) :
    p.isPrefixOf (x ++ d :: y) = p.isPrefixOf x := by
  induction p generalizing x with
  | nil => simp
  | cons a p ih =>
    have had : a ≠ d := fun e => hd (by simp [e])
    have hd2 : d ∉ p := fun e => hd (List.mem_cons_of_mem _ e)
    cases x with
    | nil => simp [List.isPrefixOf, had]
    | cons c t => simp [List.isPrefixOf, ih t hd2]

/-- A character that does not occur in `p` separates the occurrences of `p`:
none goes across it. -/
theorem countOcc_append_sep (p x y : List Char) (d : Char) (hp : p ≠ []) (hd : d ∉ p) :
    countOcc p (x ++ d :: y) = countOcc p x + countOcc p y := by
  induction x with
  | nil =>
    cases p with
    | nil => exact absurd rfl hp
    | cons a p =>
      have had : a ≠ d := fun e => hd (by simp [e])
      simp [countOcc, List.isPrefixOf, had]
  | cons c t ih =>
    have h := isPrefixOf_append_sep p (c :: t) y d hd
    rw [List.cons_append] at h ⊢
    rw [countOcc, countOcc, h, ih]
    omega

/-! ## Lemmas on the pattern `fixDesc` -/

theorem takeWhile_run (p : Char → Bool) (tok post : List Char) (d : Char)
    (h1 : ∀ c ∈ tok, p c = true) (h2 : p d = false) :
    (tok ++ d :: post).takeWhile p = tok ∧ (tok ++ d :: post).dropWhile p = d :: post := by
  have h3 : ¬ p d = true := by simp [h2]
  constructor
  · rw [List.takeWhile_append_of_pos h1, List.takeWhile_cons_of_neg h3, List.append_nil]
  · rw [List.dropWhile_append_of_pos h1, List.dropWhile_cons_of_neg h3]

theorem isPrefixOf_append_self (l r : List Char) : l.isPrefixOf (l ++ r) = true :=
  List.isPrefixOf_iff_prefix.mpr (List.prefix_append l r)

theorem fixDescTail_some (rest : List Char) (k : Nat) (h : fixDescTail rest = some k) :
    (∃ post, rest = ' ' :: '.' :: post) ∨ (∃ post, rest = '.' :: post) := by
  unfold fixDescTail at h
  split at h
  · exact Or.inl ⟨_, rfl⟩
  · exact Or.inr ⟨_, rfl⟩
  · exact absurd h (by simp)

/-- The pattern matches a text that starts with " Default: ", a token, an
optional blank and a period. -/
theorem fixDescMatch_of_clause (tok sp post : List Char) (hne : tok ≠ [])
    (hall : ∀ c ∈ tok, fixDescClass c = true) (hsp : sp = [] ∨ sp = [' ']) :
    fixDescMatch (" Default: ".toList ++ (tok ++ (sp ++ '.' :: post)))
      = some (" Default: ".toList.length + tok.length + (sp.length + 1)) := by
  unfold fixDescMatch
  rw [if_pos (isPrefixOf_append_self _ _), List.drop_left]
  rcases hsp with rfl | rfl
  · obtain ⟨e1, e2⟩ := takeWhile_run fixDescClass tok post '.' hall (by decide)
    simp only [List.nil_append, e1, e2, if_neg hne, fixDescTail]
    rfl
  · obtain ⟨e1, e2⟩ := takeWhile_run fixDescClass tok ('.' :: post) ' ' hall (by decide)
    simp only [List.singleton_append, e1, e2, if_neg hne, fixDescTail]
    rfl

/-- A match of the pattern at the start of a text gives the parts of the
clause. -/
theorem clause_of_fixDescMatch (s : List Char) (n : Nat) (h : fixDescMatch s = some n) :
    ∃ tok sp post, tok ≠ [] ∧ (∀ c ∈ tok, fixDescClass c = true) ∧ (sp = [] ∨ sp = [' '])
      ∧ s = " Default: ".toList ++ (tok ++ (sp ++ '.' :: post)) := by
  unfold fixDescMatch at h
  by_cases hp : " Default: ".toList.isPrefixOf s = true
  · rw [if_pos hp] at h
    obtain ⟨r, hr⟩ := List.isPrefixOf_iff_prefix.mp hp
    subst hr
    rw [List.drop_left] at h
    by_cases hne : r.takeWhile fixDescClass = []
    · simp only [hne, if_true] at h
      exact absurd h (by simp)
    · simp only [hne, if_false] at h
      have hsplit := List.takeWhile_append_dropWhile fixDescClass r
      have hall : ∀ c ∈ r.takeWhile fixDescClass, fixDescClass c = true :=
        fun c hc => List.mem_takeWhile_imp hc
      obtain ⟨k, hk, _⟩ := Option.map_eq_some'.mp h
      rcases fixDescTail_some _ k hk with ⟨post, hrest⟩ | ⟨post, hrest⟩
      · exact ⟨r.takeWhile fixDescClass, [' '], post, hne, hall, Or.inr rfl, by
          rw [List.singleton_append, ← hrest, hsplit]⟩
      · exact ⟨r.takeWhile fixDescClass, [], post, hne, hall, Or.inl rfl, by
          rw [List.nil_append, ← hrest, hsplit]⟩
  · rw [if_neg hp] at h
    exact absurd h (by simp)

theorem fixDescReplaceAllAux_of_no_match (d : List Char)
    (h : ∀ s, s <:+ d → fixDescMatch s = none) : fixDescReplaceAllAux 0 d = d := by
  induction d with
  | nil => rfl
  | cons c t ih =>
    have h1 := h (c :: t) (List.suffix_refl _)
    have h2 := ih (fun s hs => h s (hs.trans (List.suffix_cons c t)))
    simp only [fixDescReplaceAllAux, h1, h2]

/-- A description without a substring that the pattern matches is left
unchanged by the cleaning step. -/
theorem fixDescReplaceAll_of_no_match (d : List Char) (h : ¬ HasFixDescMatch d) :
    fixDescReplaceAll d = d := by
  apply fixDescReplaceAllAux_of_no_match
  intro s hs
  cases hm : fixDescMatch s with
  | none => rfl
  | some n =>
    exfalso
    obtain ⟨tok, sp, post, hne, hall, hsp, rfl⟩ := clause_of_fixDescMatch s n hm
    obtain ⟨pre, hpre⟩ := hs
    exact h ⟨pre, tok, sp, post, hne, hall, hsp, hpre.symm⟩

/-- A description that contains a substring matched by the pattern has a
position at which the pattern matches. -/
theorem tails_any_of_HasFixDescMatch (d : List Char) (h : HasFixDescMatch d) :
    d.tails.any (fun s => (fixDescMatch s).isSome) = true := by
  obtain ⟨pre, tok, sp, post, hne, hall, hsp, rfl⟩ := h
  rw [List.any_eq_true]
  refine ⟨" Default: ".toList ++ (tok ++ (sp ++ '.' :: post)), ?_, ?_⟩
  · exact (List.mem_tails _ _).mpr (List.suffix_append _ _)
  · rw [fixDescMatch_of_clause tok sp post hne hall hsp]
    rfl

/-- A description that contains a substring " Default: TOKEN." of the
specification has a position at which such a substring starts. -/
theorem tails_any_of_HasSpecDefaultClause (d : List Char) (h : HasSpecDefaultClause d) :
    d.tails.any specClauseAt = true := by
  obtain ⟨pre, tok, post, hne, hall, rfl⟩ := h
  rw [List.any_eq_true]
  refine ⟨" Default: ".toList ++ (tok ++ '.' :: post), ?_, ?_⟩
  · exact (List.mem_tails _ _).mpr (List.suffix_append _ _)
  · obtain ⟨e1, e2⟩ := takeWhile_run specTokenChar tok post '.' hall (by decide)
    unfold specClauseAt
    rw [isPrefixOf_append_self, List.drop_left, e1, e2]
    cases tok with
    | nil => exact absurd rfl hne
    | cons c t => rfl

/-- The class of the pattern holds the characters between `Z` and `a`: a
default token made of them is removed. -/
theorem fixDescReplaceAll_bracket_token :
    fixDescReplaceAll "Size. Default: [64^2].".toList = "Size.".toList := by
  rfl

/-! ## Lemmas on blocks without argument lines -/

theorem head_mem_of_isInfix (c : Char) (p l : List Char) (h : c :: p <:+: l) : c ∈ l := by
  obtain ⟨s, t, rfl⟩ := h
  simp

theorem flatMap_genArgument_all_file (b : Bool) (l : List Argument)
    (h : ∀ a ∈ l, a.Type_ = "file".toList) :
    l.flatMap (fun a => Fprintf0 (genArgument a b)) = List.replicate l.length '\n' := by
  induction l with
  | nil => rfl
  | cons x xs ih =>
    have hx : fileTyped x = true := by
      simpa [fileTyped] using h x (List.mem_cons_self _ _)
    have e3 : Fprintf0 "\n".toList = ['\n'] := by rfl
    rw [List.flatMap_cons, genArgument_file x b hx, e3,
      ih (fun a ha => h a (List.mem_cons_of_mem _ ha))]
    rfl

/-! ## Lemmas on escaping -/

theorem EscapeString_cons (c : Char) (t : List Char) :
    EscapeString (c :: t) = EscapeString [c] ++ EscapeString t := by
  simp [EscapeString, List.flatMap_cons]

theorem escapeQuotes_append (a b : List Char) :
    escapeQuotes (a ++ b) = escapeQuotes a ++ escapeQuotes b := by
  simp [escapeQuotes, List.flatMap_append]

theorem escapeThree_cons (c : Char) (t : List Char) :
    escapeThree (c :: t) = escapeThree [c] ++ escapeThree t := by
  simp [escapeThree, List.flatMap_cons]

theorem escapeQuotes_escapeThree_single (c : Char) :
    escapeQuotes (escapeThree [c]) = EscapeString [c] := by
  by_cases h1 : c = '&'
  · subst h1; rfl
  by_cases h2 : c = Char.ofNat 39
  · subst h2; rfl
  by_cases h3 : c = '<'
  · subst h3; rfl
  by_cases h4 : c = '>'
  · subst h4; rfl
  by_cases h5 : c = '"'
  · subst h5; rfl
  simp [escapeQuotes, escapeThree, EscapeString, h1, h2, h3, h4, h5]

/-- Escaping is the replacement of `&`, `<` and `>` followed by the replacement
of the two quote characters. -/
theorem escapeQuotes_escapeThree (d : List Char) :
    escapeQuotes (escapeThree d) = EscapeString d := by
  induction d with
  | nil => rfl
  | cons c t ih =>
    rw [escapeThree_cons, escapeQuotes_append, ih, escapeQuotes_escapeThree_single,
      ← EscapeString_cons]

/-- A character is either written unchanged or replaced by one of the five
entities. -/
theorem EscapeString_single_cases (c : Char) :
    (EscapeString [c] = [c] ∧ c ≠ '&' ∧ c ≠ '<' ∧ c ≠ '>' ∧ c ≠ Char.ofNat 39 ∧ c ≠ '"')
    ∨ (EscapeString [c] ∈ htmlEntities
        ∧ (c = '&' ∨ c = '<' ∨ c = '>' ∨ c = Char.ofNat 39 ∨ c = '"')) := by
  by_cases h1 : c = '&'
  · subst h1; exact Or.inr ⟨by decide, by decide⟩
  by_cases h2 : c = Char.ofNat 39
  · subst h2; exact Or.inr ⟨by decide, by decide⟩
  by_cases h3 : c = '<'
  · subst h3; exact Or.inr ⟨by decide, by decide⟩
  by_cases h4 : c = '>'
  · subst h4; exact Or.inr ⟨by decide, by decide⟩
  by_cases h5 : c = '"'
  · subst h5; exact Or.inr ⟨by decide, by decide⟩
  exact Or.inl ⟨by simp [EscapeString, h1, h2, h3, h4, h5], h1, h3, h4, h2, h5⟩

theorem htmlEntities_shape :
    ∀ e ∈ htmlEntities, e.head? = some '&' ∧ '&' ∉ e.tail ∧ '<' ∉ e ∧ '>' ∉ e ∧ ' ' ∉ e := by
  decide

/-- An escaped text holds no `<` and no `>`. -/
theorem EscapeString_no_angle (d : List Char) :
    '<' ∉ EscapeString d ∧ '>' ∉ EscapeString d := by
  induction d with
  | nil => exact ⟨by simp [EscapeString], by simp [EscapeString]⟩
  | cons c t ih =>
    rw [EscapeString_cons]
    rcases EscapeString_single_cases c with ⟨h, -, h3, h4, -, -⟩ | ⟨h, -⟩
    · rw [h]
      simp only [List.mem_append, List.mem_singleton, not_or]
      exact ⟨⟨fun e => h3 e.symm, ih.1⟩, ⟨fun e => h4 e.symm, ih.2⟩⟩
    · obtain ⟨-, -, h3, h4, -⟩ := htmlEntities_shape _ h
      simp only [List.mem_append, not_or]
      exact ⟨⟨h3, ih.1⟩, ⟨h4, ih.2⟩⟩

theorem suffix_of_no_ampersand (body E s u : List Char) (hb : '&' ∉ body)
    (hs : s <:+ body ++ E) (hst : s = '&' :: u) : s <:+ E := by
  induction body with
  | nil => simpa using hs
  | cons a body ih =>
    rcases List.suffix_cons_iff.mp hs with h2 | h2
    · rw [h2] at hst
      exact absurd (List.cons.inj hst).1 (fun e => hb (by simp [e]))
    · exact ih (fun e => hb (List.mem_cons_of_mem _ e)) h2

/-- Every `&` of an escaped text starts an entity. -/
theorem EscapeString_ampersands (d : List Char) : AmpersandsStartEntities (EscapeString d) := by
  induction d with
  | nil =>
    intro s t hs hst
    have : s = [] := List.suffix_nil.mp hs
    rw [this] at hst
    exact absurd hst (by simp)
  | cons c t ih =>
    intro s u hs hst
    rw [EscapeString_cons] at hs
    rcases EscapeString_single_cases c with ⟨h, h1, -⟩ | ⟨h, -⟩
    · rw [h] at hs
      rcases List.suffix_cons_iff.mp hs with h2 | h2
      · rw [h2] at hst
        exact absurd (List.cons.inj hst).1 h1
      · exact ih s u h2 hst
    · obtain ⟨hh, ht, -⟩ := htmlEntities_shape _ h
      generalize EscapeString [c] = e at h hs hh ht
      cases e with
      | nil => exact absurd hh (by simp)
      | cons a body =>
        rcases List.suffix_cons_iff.mp hs with h2 | h2
        · exact ⟨a :: body, h, by rw [h2]; exact List.prefix_append _ _⟩
        · exact ih s u (suffix_of_no_ampersand body _ s u ht h2 hst) hst

theorem EscapeString_append (a b : List Char) :
    EscapeString (a ++ b) = EscapeString a ++ EscapeString b := by
  simp [EscapeString, List.flatMap_append]

theorem EscapeString_of_plain (w : List Char) (h : ∀ a ∈ w, EscapeString [a] = [a]) :
    EscapeString w = w := by
  induction w with
  | nil => rfl
  | cons a w ih =>
    rw [EscapeString_cons, h a (List.mem_cons_self _ _),
      ih (fun x hx => h x (List.mem_cons_of_mem _ hx))]
    rfl

theorem plain_ne_ampersand (a : Char) (h : EscapeString [a] = [a]) : a ≠ '&' := by
  intro e
  subst e
  revert h
  decide

theorem plain_of_fixDescClass (c : Char) (h : fixDescClass c = true) :
    EscapeString [c] = [c] := by
  rcases EscapeString_single_cases c with ⟨h1, -⟩ | ⟨-, h1⟩
  · exact h1
  · rcases h1 with h1 | h1 | h1 | h1 | h1 <;> subst h1 <;> exact absurd h (by decide)

theorem plain_of_clause (tok sp : List Char) (hall : ∀ c ∈ tok, fixDescClass c = true)
    (hsp : sp = [] ∨ sp = [' ']) :
    ∀ a ∈ " Default: ".toList ++ (tok ++ (sp ++ ['.'])), EscapeString [a] = [a] := by
  have hL : ∀ a ∈ " Default: ".toList ++ [' ', '.'], EscapeString [a] = [a] := by decide
  intro a ha
  rcases List.mem_append.mp ha with h1 | h1
  · exact hL a (List.mem_append_left _ h1)
  · rcases List.mem_append.mp h1 with h2 | h2
    · exact plain_of_fixDescClass a (hall a h2)
    · apply hL a
      apply List.mem_append_right
      rcases hsp with rfl | rfl
      · simp only [List.nil_append, List.mem_singleton] at h2
        simp [h2]
      · simp only [List.singleton_append, List.mem_cons, List.mem_singleton] at h2
        simpa using h2

/-- An escaped text that begins with characters that escaping leaves unchanged
comes from a text that begins with the same characters. -/
theorem unescape_of_plain (w s rest : List Char) (hw : ∀ a ∈ w, EscapeString [a] = [a])
    (h : EscapeString s = w ++ rest) : ∃ s1, s = w ++ s1 ∧ EscapeString s1 = rest := by
  induction w generalizing s with
  | nil => exact ⟨s, rfl, h⟩
  | cons a w ih =>
    cases s with
    | nil => exact absurd h (by simp [EscapeString])
    | cons c t =>
      rw [EscapeString_cons] at h
      have ha := hw a (List.mem_cons_self _ _)
      rcases EscapeString_single_cases c with ⟨h1, -⟩ | ⟨h1, -⟩
      · rw [h1] at h
        obtain ⟨e1, e2⟩ := List.cons.inj h
        obtain ⟨s1, hs1, hs2⟩ := ih t (fun x hx => hw x (List.mem_cons_of_mem _ hx)) e2
        exact ⟨s1, by rw [e1, hs1]; rfl, hs2⟩
      · obtain ⟨hh, -⟩ := htmlEntities_shape _ h1
        generalize EscapeString [c] = e at h hh
        cases e with
        | nil => exact absurd hh (by simp)
        | cons x body =>
          have hx : x = '&' := by simpa using hh
          have e1 : x = a := (List.cons.inj h).1
          exact absurd (e1.symm.trans hx) (plain_ne_ampersand a ha)

theorem fixDescMatch_clause_length (tok sp post : List Char) (n : Nat)
    (hne : tok ≠ []) (hall : ∀ c ∈ tok, fixDescClass c = true) (hsp : sp = [] ∨ sp = [' '])
    (h : fixDescMatch (" Default: ".toList ++ (tok ++ (sp ++ '.' :: post))) = some n) :
    n = (" Default: ".toList ++ (tok ++ (sp ++ ['.']))).length := by
  rw [fixDescMatch_of_clause tok sp post hne hall hsp] at h
  have := Option.some.inj h
  simp only [List.length_append, List.length_singleton]
  omega

/-- The pattern matches at the start of a text exactly as it matches at the
start of the escaped text. -/
theorem fixDescMatch_EscapeString (s : List Char) :
    fixDescMatch (EscapeString s) = fixDescMatch s := by
  cases hm : fixDescMatch s with
  | some n =>
    obtain ⟨tok, sp, post, hne, hall, hsp, rfl⟩ := clause_of_fixDescMatch s n hm
    have hw := plain_of_clause tok sp hall hsp
    have e : " Default: ".toList ++ (tok ++ (sp ++ '.' :: post))
        = (" Default: ".toList ++ (tok ++ (sp ++ ['.']))) ++ post := by
      simp [List.append_assoc, -String.toList]
    have e2 : EscapeString (" Default: ".toList ++ (tok ++ (sp ++ '.' :: post)))
        = " Default: ".toList ++ (tok ++ (sp ++ '.' :: EscapeString post)) := by
      rw [e, EscapeString_append, EscapeString_of_plain _ hw]
      simp [List.append_assoc, -String.toList]
    rw [e2, fixDescMatch_of_clause tok sp _ hne hall hsp, ← hm,
      fixDescMatch_of_clause tok sp _ hne hall hsp]
  | none =>
    cases hm2 : fixDescMatch (EscapeString s) with
    | none => rfl
    | some n =>
      exfalso
      obtain ⟨tok, sp, post, hne, hall, hsp, h⟩ := clause_of_fixDescMatch _ n hm2
      have hw := plain_of_clause tok sp hall hsp
      have e : " Default: ".toList ++ (tok ++ (sp ++ '.' :: post))
          = (" Default: ".toList ++ (tok ++ (sp ++ ['.']))) ++ post := by
        simp [List.append_assoc, -String.toList]
      rw [e] at h
      obtain ⟨s1, hs1, -⟩ := unescape_of_plain _ s post hw h
      have e3 : s = " Default: ".toList ++ (tok ++ (sp ++ '.' :: s1)) := by
        rw [hs1]
        simp [List.append_assoc, -String.toList]
      rw [e3, fixDescMatch_of_clause tok sp _ hne hall hsp] at hm
      exact absurd hm (by simp)

theorem fixDescMatch_cons_of_ne_blank (c : Char) (t : List Char) (h : c ≠ ' ') :
    fixDescMatch (c :: t) = none := by
  have e : " Default: ".toList = ' ' :: "Default: ".toList := rfl
  have h2 : (' ' == c) = false := by
    simp only [beq_eq_false_iff_ne, ne_eq]
    exact fun e => h e.symm
  unfold fixDescMatch
  rw [e, List.isPrefixOf, h2]
  rfl

theorem fixDescReplaceAllAux_append_of_no_blank (e X : List Char) (h : ' ' ∉ e) :
    fixDescReplaceAllAux 0 (e ++ X) = e ++ fixDescReplaceAllAux 0 X := by
  induction e with
  | nil => rfl
  | cons a e ih =>
    have ha : a ≠ ' ' := fun h1 => h (by simp [h1])
    have h1 := fixDescMatch_cons_of_ne_blank a (e ++ X) ha
    rw [List.cons_append]
    simp only [fixDescReplaceAllAux, h1, ih (fun h2 => h (List.mem_cons_of_mem _ h2))]
    rfl

/-- The scan of the cleaning step commutes with escaping, when the characters
still to be dropped are characters that escaping leaves unchanged. -/
theorem fixDescReplaceAllAux_EscapeString (s : List Char) :
    ∀ k : Nat, (∀ c ∈ s.take k, EscapeString [c] = [c]) →
      fixDescReplaceAllAux k (EscapeString s) = EscapeString (fixDescReplaceAllAux k s) := by
  induction s with
  | nil =>
    intro k _
    cases k <;> rfl
  | cons c t ih =>
    intro k hk
    cases k with
    | succ k =>
      have hc : EscapeString [c] = [c] := hk c (by simp)
      have ht : ∀ a ∈ t.take k, EscapeString [a] = [a] := fun a ha => hk a (by simp [ha])
      rw [EscapeString_cons c t, hc, List.singleton_append]
      simp only [fixDescReplaceAllAux]
      exact ih k ht
    | zero =>
      cases hm : fixDescMatch (c :: t) with
      | some n =>
        have hm2 : fixDescMatch (EscapeString (c :: t)) = some n := by
          rw [fixDescMatch_EscapeString, hm]
        obtain ⟨tok, sp, post, hne, hall, hsp, hs⟩ := clause_of_fixDescMatch _ n hm
        have hw := plain_of_clause tok sp hall hsp
        have hn : n = (" Default: ".toList ++ (tok ++ (sp ++ ['.']))).length := by
          rw [hs] at hm
          exact fixDescMatch_clause_length tok sp post n hne hall hsp hm
        have e : c :: t = (" Default: ".toList ++ (tok ++ (sp ++ ['.']))) ++ post := by
          rw [hs]
          simp [List.append_assoc, -String.toList]
        have htake : (c :: t).take n = " Default: ".toList ++ (tok ++ (sp ++ ['.'])) := by
          rw [e, hn, List.take_left]
        have hplain : ∀ a ∈ (c :: t).take n, EscapeString [a] = [a] := by
          rw [htake]
          exact hw
        have hpos : 0 < n := by
          rw [hn]
          simp [List.length_append]
        obtain ⟨m, rfl⟩ : ∃ m, n = m + 1 := ⟨n - 1, by omega⟩
        have hc : EscapeString [c] = [c] := hplain c (by simp)
        have ht : ∀ a ∈ t.take m, EscapeString [a] = [a] := fun a ha => hplain a (by simp [ha])
        rw [EscapeString_cons c t, hc, List.singleton_append] at hm2 ⊢
        simp only [fixDescReplaceAllAux, hm, hm2, Nat.add_sub_cancel]
        exact ih m ht
      | none =>
        have hm2 : fixDescMatch (EscapeString (c :: t)) = none := by
          rw [fixDescMatch_EscapeString, hm]
        have ih0 := ih 0 (by simp)
        have hr : fixDescReplaceAllAux 0 (c :: t) = c :: fixDescReplaceAllAux 0 t := by
          simp only [fixDescReplaceAllAux, hm]
        rw [hr, EscapeString_cons c t, EscapeString_cons c (fixDescReplaceAllAux 0 t)] at *
        rcases EscapeString_single_cases c with ⟨h1, -⟩ | ⟨h1, -⟩
        · rw [h1, List.singleton_append] at hm2 ⊢
          simp only [fixDescReplaceAllAux, hm2, ih0]
          rfl
        · obtain ⟨-, -, -, -, hb⟩ := htmlEntities_shape _ h1
          rw [fixDescReplaceAllAux_append_of_no_blank _ _ hb, ih0]

/-! ## Claims -/

/-- C1: for every list of endpoints, GenerateIndex returns the fixed heading
"## Index", then one bullet line per endpoint in input order, then the fixed
"## Endpoints" heading; the visible text of a bullet is the endpoint name with
a leading "/api/v0" removed if present, and its anchor is the name with one
leading "/" removed if present and every remaining "/" replaced by "-". -/
theorem GenerateIndex_spec (endps : List Endpoint) :
    GenerateIndex endps =
      "## Index\n\n".toList
      ++ (endps.map (fun e => "  *  [".toList ++ indexText e.Name ++ "](#".toList
            ++ indexAnchor e.Name ++ ")\n".toList)).flatten
      ++ "\n\n## Endpoints\n\n".toList := by
  unfold GenerateIndex
  simp only [foldl_append_eq, Replace_slash, TrimPrefix_eq_removeLeading, indexText,
    indexAnchor, List.flatMap, List.append_assoc]

/-- C2: the arguments block of a positional argument whose description ends
in a percent sign.  The line built by genArgument is handed to the formatter as
its format, so the percent sign and the two characters after it are rewritten:
the block differs from the block of the specification, which keeps the
description text unchanged. -/
theorem GenerateArgumentsBlock_percent_sign :
    GenerateArgumentsBlock [percentArgument] []
      = "### Arguments\n\n- `arg` [int]: 100%!R(MISSING)equired: no.\n\n".toList
    ∧ specArgumentsBlock [percentArgument] []
      = "### Arguments\n\n- `arg` [int]: 100% Required: no.\n\n".toList
    ∧ GenerateArgumentsBlock [percentArgument] [] ≠ specArgumentsBlock [percentArgument] [] := by
  refine ⟨by rfl, by rfl, by decide⟩

/-- C3, as stated, fails: with a file-typed entry before an entry that is not
file-typed, the arguments block differs from the block obtained after deleting
the file-typed entry. -/
theorem GenerateArgumentsBlock_file_entry_not_deleted :
    (∃ a ∈ [sampleFileArgument, sampleIntArgument] ++ [], fileTyped a = false)
    ∧ GenerateArgumentsBlock [sampleFileArgument, sampleIntArgument] []
      ≠ GenerateArgumentsBlock
          ([sampleFileArgument, sampleIntArgument].filter (fun a => !fileTyped a))
          (([] : List Argument).filter (fun a => !fileTyped a)) := by
  refine ⟨⟨sampleIntArgument, by decide, by decide⟩, by decide⟩

/-- C3, amended: whenever at least one entry is not file-typed, the arguments
block is the heading, then, entry by entry in order, one newline character for
a file-typed entry and the formatted line for any other entry, then the closing
newline; the block obtained after deleting every file-typed entry is the same
text without those newline characters. -/
theorem GenerateArgumentsBlock_file_entry_newline (args opts : List Argument)
    (h : ∃ a ∈ args ++ opts, fileTyped a = false) :
    GenerateArgumentsBlock args opts =
      "### Arguments\n\n".toList
      ++ args.flatMap (fun a =>
          if fileTyped a then "\n".toList else Fprintf0 (genArgument a true))
      ++ opts.flatMap (fun a =>
          if fileTyped a then "\n".toList else Fprintf0 (genArgument a false))
      ++ "\n".toList
    ∧ GenerateArgumentsBlock (args.filter (fun a => !fileTyped a))
        (opts.filter (fun a => !fileTyped a)) =
      "### Arguments\n\n".toList
      ++ args.flatMap (fun a =>
          if fileTyped a then [] else Fprintf0 (genArgument a true))
      ++ opts.flatMap (fun a =>
          if fileTyped a then [] else Fprintf0 (genArgument a false))
      ++ "\n".toList := by
  obtain ⟨a, ha, hf⟩ := h
  have e3 : Fprintf0 "\n".toList = "\n".toList := by rfl
  have hne : args.length + opts.length ≠ 0 := by
    have : 0 < (args ++ opts).length := List.length_pos_of_mem ha
    simp only [List.length_append] at this
    omega
  have ha2 : a ∈ args.filter (fun a => !fileTyped a) ++ opts.filter (fun a => !fileTyped a) := by
    rcases List.mem_append.mp ha with h1 | h1
    · exact List.mem_append_left _ (List.mem_filter.mpr ⟨h1, by simp [hf]⟩)
    · exact List.mem_append_right _ (List.mem_filter.mpr ⟨h1, by simp [hf]⟩)
  have hne2 : (args.filter (fun a => !fileTyped a)).length
      + (opts.filter (fun a => !fileTyped a)).length ≠ 0 := by
    have : 0 < (args.filter (fun a => !fileTyped a)
      ++ opts.filter (fun a => !fileTyped a)).length := List.length_pos_of_mem ha2
    simp only [List.length_append] at this
    omega
  have key : ∀ (b : Bool) (l : List Argument),
      l.flatMap (fun a => Fprintf0 (genArgument a b))
        = l.flatMap (fun a => if fileTyped a then "\n".toList else Fprintf0 (genArgument a b)) := by
    intro b l
    congr 1
    funext x
    by_cases hx : fileTyped x = true
    · rw [if_pos hx, genArgument_file x b hx, e3]
    · rw [if_neg hx]
  have key2 : ∀ (b : Bool) (l : List Argument),
      (l.filter (fun a => !fileTyped a)).flatMap (fun a => Fprintf0 (genArgument a b))
        = l.flatMap (fun a => if fileTyped a then [] else Fprintf0 (genArgument a b)) := by
    intro b l
    rw [flatMap_filter_eq]
    congr 1
    funext x
    cases fileTyped x <;> simp
  constructor
  · rw [GenerateArgumentsBlock_eq, if_neg hne, key true, key false]
    simp
  · rw [GenerateArgumentsBlock_eq, if_neg hne2, key2 true, key2 false]
    simp

/-- C3, amended, at a file-typed entry followed by an entry that is not. -/
theorem GenerateArgumentsBlock_file_entry_newline_witness :
    GenerateArgumentsBlock [sampleFileArgument, sampleIntArgument] [] =
      "### Arguments\n\n".toList
      ++ [sampleFileArgument, sampleIntArgument].flatMap (fun a =>
          if fileTyped a then "\n".toList else Fprintf0 (genArgument a true))
      ++ ([] : List Argument).flatMap (fun a =>
          if fileTyped a then "\n".toList else Fprintf0 (genArgument a false))
      ++ "\n".toList
    ∧ GenerateArgumentsBlock ([sampleFileArgument, sampleIntArgument].filter (fun a => !fileTyped a))
        (([] : List Argument).filter (fun a => !fileTyped a)) =
      "### Arguments\n\n".toList
      ++ [sampleFileArgument, sampleIntArgument].flatMap (fun a =>
          if fileTyped a then [] else Fprintf0 (genArgument a true))
      ++ ([] : List Argument).flatMap (fun a =>
          if fileTyped a then [] else Fprintf0 (genArgument a false))
      ++ "\n".toList :=
  GenerateArgumentsBlock_file_entry_newline [sampleFileArgument, sampleIntArgument] []
    ⟨sampleIntArgument, by decide, by decide⟩

/-- C4: GenerateBodyBlock returns the empty text if and only if no argument is
file-typed; when the list has a file-typed argument, the result begins with the
"### Request Body" heading and the sentence naming the first file-typed
argument of the list, whatever file-typed arguments follow it. -/
theorem GenerateBodyBlock_spec (args : List Argument) :
    (GenerateBodyBlock args = [] ↔ ∀ a ∈ args, a.Type_ ≠ "file".toList)
    ∧ ∀ (pre post : List Argument) (f : Argument), args = pre ++ f :: post →
        (∀ a ∈ pre, a.Type_ ≠ "file".toList) → f.Type_ = "file".toList →
        GenerateBodyBlock args ≠ []
        ∧ "\n### Request Body\n\nArgument `".toList ++ f.Name ++ "` is of file type.".toList
            <+: GenerateBodyBlock args := by
  have hsome : ∀ f, findBodyArg args = some f →
      GenerateBodyBlock args ≠ []
      ∧ "\n### Request Body\n\nArgument `".toList ++ f.Name ++ "` is of file type.".toList
          <+: GenerateBodyBlock args := by
    intro f hf
    rw [GenerateBodyBlock_eq, hf]
    constructor
    · intro h
      exact requestBodyParagraph_ne_nil f.Name (List.append_eq_nil.mp h).1
    · exact (requestBodyParagraph_start f.Name).trans (List.prefix_append _ _)
  constructor
  · have hiff : (∀ a ∈ args, a.Type_ ≠ "file".toList) ↔ ∀ a ∈ args, fileTyped a = false := by
      simp [fileTyped]
    rw [hiff, ← findBodyArg_eq_none]
    constructor
    · intro h
      cases hfa : findBodyArg args with
      | none => rfl
      | some f => exact absurd h (hsome f hfa).1
    · intro h
      rw [GenerateBodyBlock_eq, h]
  · intro pre post f hargs hpre hf
    apply hsome
    rw [hargs]
    exact findBodyArg_split pre post f (fun a ha => by simpa [fileTyped] using hpre a ha)
      (by simpa [fileTyped] using hf)

/-- C4 at a list whose second and third arguments are file-typed: the block
names the second argument. -/
theorem GenerateBodyBlock_spec_witness :
    GenerateBodyBlock [sampleIntArgument, sampleFileArgument, sampleDataArgument] ≠ []
    ∧ "\n### Request Body\n\nArgument `".toList ++ sampleFileArgument.Name
        ++ "` is of file type.".toList
      <+: GenerateBodyBlock [sampleIntArgument, sampleFileArgument, sampleDataArgument] :=
  (GenerateBodyBlock_spec [sampleIntArgument, sampleFileArgument, sampleDataArgument]).2
    [sampleIntArgument] [sampleDataArgument] sampleFileArgument rfl (by decide) (by decide)

/-- C5: for a list whose first file-typed argument is `f`, the request-body
block is the basic paragraph followed by the directory-upload documentation
exactly when the Endpoint field of `f` is "/api/v0/add", and is the basic
paragraph alone for every other value; the documentation begins with the
sentence on the `add` command and mentions "application/x-directory" and
"Abspath". -/
theorem GenerateBodyBlock_add_documentation (pre post : List Argument) (f : Argument)
    (hpre : ∀ a ∈ pre, a.Type_ ≠ "file".toList) (hf : f.Type_ = "file".toList) :
    (GenerateBodyBlock (pre ++ f :: post)
        = requestBodyParagraph f.Name ++ (addDocumentation ++ "\n".toList)
      ↔ f.Endpoint = "/api/v0/add".toList)
    ∧ (f.Endpoint ≠ "/api/v0/add".toList →
        GenerateBodyBlock (pre ++ f :: post) = requestBodyParagraph f.Name)
    ∧ "\n\nThe `add` command not only allows adding files".toList <+: addDocumentation
    ∧ "application/x-directory".toList <:+: addDocumentation
    ∧ "Abspath".toList <:+: addDocumentation := by
  have hfind : findBodyArg (pre ++ f :: post) = some f :=
    findBodyArg_split pre post f (fun a ha => by simpa [fileTyped] using hpre a ha)
      (by simpa [fileTyped] using hf)
  have hother : f.Endpoint ≠ "/api/v0/add".toList →
      GenerateBodyBlock (pre ++ f :: post) = requestBodyParagraph f.Name := by
    intro h
    rw [GenerateBodyBlock_eq, hfind]
    simp only [h, if_false, List.append_nil]
  refine ⟨?_, hother, ?_, ?_, ?_⟩
  · constructor
    · intro h
      by_contra hne
      rw [hother hne] at h
      have h2 := List.self_eq_append_right.mp h
      have h3 := (List.append_eq_nil.mp h2).2
      exact absurd h3 (by decide)
    · intro h
      rw [GenerateBodyBlock_eq, hfind]
      simp only [h, if_true]
  · have e : "\n\nThe `add` command not only allows adding files".toList
        = "\n\n".toList ++ "The `add` command not only allows adding files".toList := by rfl
    unfold addDocumentation
    simp only [List.append_assoc]
    rw [e]
    apply (List.prefix_append_right_inj _).mpr
    refine List.IsPrefix.trans ?_ (List.prefix_append _ _)
    exact ⟨", but also uploading directories and complex hierarchies.\n\n".toList, by rfl⟩
  · have h : "application/x-directory".toList
        <:+: "Content-Type: application/x-directory\n".toList :=
      ⟨"Content-Type: ".toList, "\n".toList, by rfl⟩
    unfold addDocumentation
    simp only [List.append_assoc]
    repeat (first | exact isInfix_append_left _ h | apply isInfix_append_right)
  · have h : "Abspath".toList <:+: "Abspath: /absolute/path/to/file.txt\n".toList :=
      ⟨[], ": /absolute/path/to/file.txt\n".toList, by rfl⟩
    unfold addDocumentation
    simp only [List.append_assoc]
    repeat (first | exact isInfix_append_left _ h | apply isInfix_append_right)

/-- C5 at a list whose first file-typed argument belongs to "/api/v0/add" and
at one whose first file-typed argument belongs to another endpoint. -/
theorem GenerateBodyBlock_add_documentation_witness :
    GenerateBodyBlock ([sampleIntArgument] ++ sampleFileArgument :: [sampleDataArgument])
      = requestBodyParagraph sampleFileArgument.Name ++ (addDocumentation ++ "\n".toList)
    ∧ GenerateBodyBlock ([sampleIntArgument] ++ sampleDataArgument :: [sampleFileArgument])
      = requestBodyParagraph sampleDataArgument.Name :=
  ⟨(GenerateBodyBlock_add_documentation [sampleIntArgument] [sampleDataArgument]
      sampleFileArgument (by decide) (by decide)).1.mpr (by decide),
   (GenerateBodyBlock_add_documentation [sampleIntArgument] [sampleFileArgument]
      sampleDataArgument (by decide) (by decide)).2.1 (by decide)⟩

/-- C6: the example block is the heading and the command `curl -X POST`, the
upload flag when a positional argument is file-typed, then, between double
quotes, the address "http://127.0.0.1:5001" followed by the endpoint name and
the query string, then the closing of the command and the rule; the query
string is `?` followed by the `&`-join of the entries (one `arg=<NAME>` per
positional argument that is not file-typed, then one `NAME=DEFAULT` or
`NAME=<value>` per option, in input order) and is absent, `?` included, when
there is no entry. -/
theorem GenerateExampleBlock_spec (endp : Endpoint) :
    GenerateExampleBlock endp =
      "### cURL Example\n\n`curl -X POST ".toList
      ++ (if endp.Arguments.any fileTyped then "-F file=@myfile ".toList else [])
      ++ "\"".toList
      ++ ("http://127.0.0.1:5001".toList ++ endp.Name ++ queryString endp)
      ++ "\"".toList
      ++ "`\n\n---\n".toList := by
  have hq : exampleOptions (exampleArguments endp.Arguments).1 endp.Options
      = queryEntries endp := by
    rw [exampleArguments_eq, exampleOptions_eq]
    unfold queryEntries
    simp [List.append_assoc]
  rw [GenerateExampleBlock_eq, hq, Join_eq_intercalate]
  unfold queryString
  by_cases he : queryEntries endp = []
  · simp [he]
  · have h3 : 0 < (queryEntries endp).length := List.length_pos.mpr he
    simp [he, h3, List.append_assoc]

/-- C7: the example block carries the flag "-F file=@myfile " right after
"curl -X POST " if and only if some positional argument is file-typed; a
file-typed positional argument adds no entry to the query arguments (they are
the same with that argument left out); and for one file-typed positional
argument and the one option "encoding" with default "json" the command is
`curl -X POST -F file=@myfile` on the address with the query string
"encoding=json" alone. -/
theorem GenerateExampleBlock_file_flag (endp : Endpoint) :
    ("### cURL Example\n\n`curl -X POST -F file=@myfile ".toList <+: GenerateExampleBlock endp
      ↔ ∃ a ∈ endp.Arguments, a.Type_ = "file".toList)
    ∧ (∀ (pre post : List Argument) (f : Argument), endp.Arguments = pre ++ f :: post →
        f.Type_ = "file".toList →
        (exampleArguments endp.Arguments).1 = (exampleArguments (pre ++ post)).1)
    ∧ (∀ (f o : Argument), endp.Arguments = [f] → endp.Options = [o] →
        f.Type_ = "file".toList → o.Name = "encoding".toList → o.Default = "json".toList →
        GenerateExampleBlock endp =
          "### cURL Example\n\n`curl -X POST -F file=@myfile \"http://127.0.0.1:5001".toList
            ++ endp.Name ++ "?encoding=json\"`\n\n---\n".toList) := by
  refine ⟨?_, ?_, ?_⟩
  · have e : "### cURL Example\n\n`curl -X POST -F file=@myfile ".toList
        = "### cURL Example\n\n`curl -X POST ".toList ++ "-F file=@myfile ".toList := by rfl
    have hany : endp.Arguments.any fileTyped = true
        ↔ ∃ a ∈ endp.Arguments, a.Type_ = "file".toList := by
      simp [List.any_eq_true, fileTyped, -String.toList]
    rw [GenerateExampleBlock_eq, e, List.prefix_append_right_inj, ← hany]
    cases hb : endp.Arguments.any fileTyped
    · have e2 : "-F file=@myfile ".toList = '-' :: "F file=@myfile ".toList := by rfl
      simp only [Bool.false_eq_true, if_false, List.nil_append, iff_false, e2]
      intro h
      have h1 := (List.cons_prefix_cons.mp h).1
      exact absurd h1 (by decide)
    · simp only [if_true, iff_true]
      exact List.prefix_append _ _
  · intro pre post f hargs hf
    have hf2 : fileTyped f = true := by simpa [fileTyped] using hf
    rw [hargs, exampleArguments_eq, exampleArguments_eq]
    simp [List.filter_append, List.filter_cons, hf2]
  · intro f o hargs hopts hf hn hd
    have hf2 : fileTyped f = true := by simpa [fileTyped] using hf
    rw [GenerateExampleBlock_eq, hargs, hopts, exampleArguments_eq, exampleOptions_eq]
    simp [hf2, hn, hd, Join, List.append_assoc]

/-- C7 at the endpoint with one file-typed positional argument and the
option "encoding". -/
theorem GenerateExampleBlock_file_flag_witness :
    "### cURL Example\n\n`curl -X POST -F file=@myfile ".toList
      <+: GenerateExampleBlock sampleUploadEndpoint
    ∧ (exampleArguments sampleUploadEndpoint.Arguments).1 = (exampleArguments ([] ++ [])).1
    ∧ GenerateExampleBlock sampleUploadEndpoint =
        "### cURL Example\n\n`curl -X POST -F file=@myfile \"http://127.0.0.1:5001".toList
          ++ sampleUploadEndpoint.Name ++ "?encoding=json\"`\n\n---\n".toList :=
  ⟨(GenerateExampleBlock_file_flag sampleUploadEndpoint).1.mpr
      ⟨sampleFileArgument, by decide, by decide⟩,
   (GenerateExampleBlock_file_flag sampleUploadEndpoint).2.1 [] [] sampleFileArgument
      rfl (by decide),
   (GenerateExampleBlock_file_flag sampleUploadEndpoint).2.2 sampleFileArgument encodingOption
      rfl rfl (by decide) (by decide) (by decide)⟩

/-- C8, as stated, fails: an option that is not file-typed, has an empty
Default, and whose description mentions a default that the cleaning pattern
does not match, is rendered with a clause "Default: `256 KiB`." in its
line. -/
theorem genArgument_description_default_kept :
    chunkerOption.Type_ ≠ "file".toList
    ∧ chunkerOption.Default = []
    ∧ genArgument chunkerOption false
      = "- `chunker` [string]: Chunk size. Default: `256 KiB`. Required: no.\n".toList
    ∧ "Default: `256 KiB`.".toList <:+: GenerateArgumentsBlock [] [chunkerOption] := by
  refine ⟨by decide, rfl, by rfl, ?_⟩
  exact ⟨"### Arguments\n\n- `chunker` [string]: Chunk size. ".toList,
    " Required: no.\n\n".toList, by rfl⟩

/-- C8, amended: for every argument that is not file-typed, genArgument adds
no Default clause when Default is empty and adds the one clause
" Default: `VALUE`." right after the cleaned description when Default is not
empty; the number of occurrences of "Default:" in the line is the number of
those in the alias, the Type, the cleaned description and the Default value
themselves, plus one exactly when Default is not empty. -/
theorem genArgument_default_clause (a : Argument) (b : Bool)
    (h : a.Type_ ≠ "file".toList) :
    (a.Default = [] →
      genArgument a b = "- `".toList ++ (if b then "arg".toList else a.Name) ++ "` [".toList
        ++ a.Type_ ++ "]: ".toList ++ cleanedDescription a
        ++ requiredClause a ++ "\n".toList)
    ∧ (a.Default ≠ [] →
      genArgument a b = "- `".toList ++ (if b then "arg".toList else a.Name) ++ "` [".toList
        ++ a.Type_ ++ "]: ".toList ++ cleanedDescription a
        ++ " Default: `".toList ++ a.Default ++ "`.".toList
        ++ requiredClause a ++ "\n".toList)
    ∧ countOcc "Default:".toList (genArgument a b)
      = countOcc "Default:".toList (if b then "arg".toList else a.Name)
        + countOcc "Default:".toList a.Type_
        + countOcc "Default:".toList (cleanedDescription a)
        + (if a.Default = [] then 0 else 1 + countOcc "Default:".toList a.Default) := by
  have hf : fileTyped a = false := by simpa [fileTyped] using h
  rw [genArgument_eq_argumentLine a b hf]
  generalize (if b then "arg".toList else a.Name) = al
  generalize cleanedDescription a = desc
  unfold argumentLine defaultClause
  refine ⟨?_, ?_, ?_⟩
  · intro hd
    simp [hd, List.append_assoc]
  · intro hd
    simp [hd, List.append_assoc]
  · unfold requiredClause
    by_cases hd : a.Default = [] <;> cases a.Required <;>
      simp [hd, countOcc, List.isPrefixOf, countOcc_append_sep, List.append_assoc] <;> omega

/-- C8, amended, at the option "encoding" with default "json": one occurrence
of "Default:" in its line. -/
theorem genArgument_default_clause_witness :
    countOcc "Default:".toList (genArgument encodingOption false)
      = countOcc "Default:".toList (if false then "arg".toList else encodingOption.Name)
        + countOcc "Default:".toList encodingOption.Type_
        + countOcc "Default:".toList (cleanedDescription encodingOption)
        + (if encodingOption.Default = [] then 0
            else 1 + countOcc "Default:".toList encodingOption.Default) :=
  (genArgument_default_clause encodingOption false (by decide)).2.2

/-- C9, as stated, fails: a description whose default token is followed by
a blank before the period contains no substring " Default: TOKEN." of the
stated form, yet the cleaning step removes the clause, so the rendered
description is not the escaped unchanged description. -/
theorem fixDesc_blank_before_period :
    ¬ HasSpecDefaultClause blankPeriodOption.Description
    ∧ EscapeString (fixDescReplaceAll blankPeriodOption.Description) = "Chunk size.".toList
    ∧ EscapeString (fixDescReplaceAll blankPeriodOption.Description)
      ≠ EscapeString blankPeriodOption.Description := by
  refine ⟨?_, by rfl, by decide⟩
  intro h
  have h1 := tails_any_of_HasSpecDefaultClause _ h
  revert h1
  decide

/-- C9, amended: for every argument that is not file-typed and whose
description contains no substring made of " Default: ", a non-empty run of
characters of the class of the pattern, an optional blank and a period, the
cleaning step leaves the description unchanged and the rendered description
is the html-escaping of the unchanged description. -/
theorem genArgument_description_unchanged (a : Argument) (b : Bool)
    (h : a.Type_ ≠ "file".toList) (hd : ¬ HasFixDescMatch a.Description) :
    fixDescReplaceAll a.Description = a.Description
    ∧ genArgument a b = "- `".toList ++ (if b then "arg".toList else a.Name) ++ "` [".toList
        ++ a.Type_ ++ "]: ".toList ++ EscapeString a.Description
        ++ defaultClause a ++ requiredClause a ++ "\n".toList := by
  have hf : fileTyped a = false := by simpa [fileTyped] using h
  have e := fixDescReplaceAll_of_no_match a.Description hd
  refine ⟨e, ?_⟩
  rw [genArgument_eq_argumentLine a b hf]
  unfold argumentLine cleanedDescription
  rw [e]

/-- C9, amended, at an option whose description gives a default of two
words: the description is escaped and otherwise unchanged. -/
theorem genArgument_description_unchanged_witness :
    fixDescReplaceAll twoWordOption.Description = twoWordOption.Description
    ∧ genArgument twoWordOption false
      = "- `".toList ++ (if false then "arg".toList else twoWordOption.Name) ++ "` [".toList
        ++ twoWordOption.Type_ ++ "]: ".toList ++ EscapeString twoWordOption.Description
        ++ defaultClause twoWordOption ++ requiredClause twoWordOption ++ "\n".toList :=
  genArgument_description_unchanged twoWordOption false (by decide)
    (fun h => absurd (tails_any_of_HasFixDescMatch _ h) (by decide))

/-- C10: for every argument that is not file-typed, the line of genArgument
ends with " Required: **yes**." and a newline if and only if Required is true,
and ends with " Required: no." and a newline if and only if Required is
false. -/
theorem genArgument_required_clause (a : Argument) (b : Bool)
    (h : a.Type_ ≠ "file".toList) :
    (" Required: **yes**.\n".toList <:+ genArgument a b ↔ a.Required = true)
    ∧ (" Required: no.\n".toList <:+ genArgument a b ↔ a.Required = false) := by
  have hf : fileTyped a = false := by simpa [fileTyped] using h
  have hline : genArgument a b
      = ("- `".toList ++ (if b then "arg".toList else a.Name) ++ "` [".toList ++ a.Type_
          ++ "]: ".toList ++ cleanedDescription a ++ defaultClause a)
        ++ (requiredClause a ++ "\n".toList) := by
    rw [genArgument_eq_argumentLine a b hf]
    unfold argumentLine
    simp only [List.append_assoc]
  rw [hline]
  generalize "- `".toList ++ (if b then "arg".toList else a.Name) ++ "` [".toList ++ a.Type_
    ++ "]: ".toList ++ cleanedDescription a ++ defaultClause a = x
  unfold requiredClause
  cases a.Required
  · have e1 : " Required: no.".toList ++ "\n".toList = " Required: no.\n".toList := by rfl
    simp only [Bool.false_eq_true, if_false, iff_false, iff_true, e1]
    refine ⟨?_, List.suffix_append _ _⟩
    intro hs
    have hy : " Required: **yes**.\n".toList.reverse = '\n' :: '.' :: '*' :: "*sey** :deriuqeR ".toList := by rfl
    have hn : " Required: no.\n".toList.reverse = '\n' :: '.' :: 'o' :: "n :deriuqeR ".toList := by rfl
    have h1 := List.reverse_prefix.mpr hs
    rw [List.reverse_append, hy, hn] at h1
    have h2 := List.cons_prefix_cons.mp h1
    have h3 := List.cons_prefix_cons.mp h2.2
    have h4 := List.cons_prefix_cons.mp h3.2
    exact absurd h4.1 (by decide)
  · have e1 : " Required: **yes**.".toList ++ "\n".toList = " Required: **yes**.\n".toList := by rfl
    simp only [if_true, iff_true, e1]
    refine ⟨List.suffix_append _ _, ?_⟩
    simp only [Bool.true_eq_false, iff_false]
    intro hs
    have hy : " Required: **yes**.\n".toList.reverse = '\n' :: '.' :: '*' :: "*sey** :deriuqeR ".toList := by rfl
    have hn : " Required: no.\n".toList.reverse = '\n' :: '.' :: 'o' :: "n :deriuqeR ".toList := by rfl
    have h1 := List.reverse_prefix.mpr hs
    rw [List.reverse_append, hy, hn] at h1
    have h2 := List.cons_prefix_cons.mp h1
    have h3 := List.cons_prefix_cons.mp h2.2
    have h4 := List.cons_prefix_cons.mp h3.2
    exact absurd h4.1 (by decide)

/-- C10 at an argument that is not file-typed and not required. -/
theorem genArgument_required_clause_witness :
    (" Required: **yes**.\n".toList <:+ genArgument sampleIntArgument true
      ↔ sampleIntArgument.Required = true)
    ∧ (" Required: no.\n".toList <:+ genArgument sampleIntArgument true
      ↔ sampleIntArgument.Required = false) :=
  genArgument_required_clause sampleIntArgument true (by decide)

/-- C11: the arguments block of an empty positional list and an empty option
list is exactly the heading, the sentence "This endpoint takes no arguments."
and the closing newline; the text "- `" that starts an argument line occurs
nowhere in it. -/
theorem GenerateArgumentsBlock_no_arguments :
    GenerateArgumentsBlock [] []
      = "### Arguments\n\nThis endpoint takes no arguments.\n\n".toList
    ∧ ¬ "- `".toList <:+: GenerateArgumentsBlock [] [] := by
  refine ⟨by rfl, ?_⟩
  intro h
  have h1 : '-' ∈ GenerateArgumentsBlock [] [] := head_mem_of_isInfix '-' " `".toList _ h
  revert h1
  decide

/-- C12, as stated, fails: a description with double quotes is not rendered
as the description with only `&`, `<` and `>` replaced; the quotes are
replaced by `&#34;` too. -/
theorem GenerateEndpointBlock_quote_escaped :
    GenerateEndpointBlock quotedEndpoint
      = "\n## /api/v0/id\n\nShow the &#34;peer&#34; id &amp; &lt;more&gt;.\n\n\n".toList
    ∧ GenerateEndpointBlock quotedEndpoint
      ≠ "\n## ".toList ++ quotedEndpoint.Name ++ "\n\n".toList
          ++ escapeThree quotedEndpoint.Description ++ "\n\n\n".toList := by
  refine ⟨by rfl, by decide⟩

/-- C12, amended: for every endpoint, the endpoint block is a blank line,
"## " and the name unchanged, a blank line, the escaped description and three
line ends, where the escaped description is the description with every `&`
replaced by `&amp;`, every `<` by `&lt;`, every `>` by `&gt;`, and also every
apostrophe by `&#39;` and every double quote by `&#34;`; it holds no `<` and
no `>`, and every `&` in it starts an entity. -/
theorem GenerateEndpointBlock_spec (endp : Endpoint) :
    GenerateEndpointBlock endp
      = "\n## ".toList ++ endp.Name ++ "\n\n".toList
          ++ escapeQuotes (escapeThree endp.Description) ++ "\n\n\n".toList
    ∧ '<' ∉ escapeQuotes (escapeThree endp.Description)
    ∧ '>' ∉ escapeQuotes (escapeThree endp.Description)
    ∧ AmpersandsStartEntities (escapeQuotes (escapeThree endp.Description)) := by
  rw [escapeQuotes_escapeThree]
  exact ⟨rfl, (EscapeString_no_angle _).1, (EscapeString_no_angle _).2,
    EscapeString_ampersands _⟩

/-- C13: for every response text, the response block is the "### Response"
heading and its sentence, then the fence "```json", the response unchanged,
and the closing fence followed by a blank line. -/
theorem GenerateResponseBlock_spec (response : List Char) :
    GenerateResponseBlock response =
      "\n### Response\n\nOn success, the call to this endpoint will return with 200 and the following body:\n\n".toList
      ++ "```json\n".toList ++ response ++ "\n```\n\n".toList := by
  have e : Fprintf0
      "\n### Response\n\nOn success, the call to this endpoint will return with 200 and the following body:\n\n".toList
      = "\n### Response\n\nOn success, the call to this endpoint will return with 200 and the following body:\n\n".toList := by
    rfl
  unfold GenerateResponseBlock
  simp only [e, List.append_assoc]

/-- C14: for every description, removing the Default clause and escaping
commute: escaping the cleaned description gives the same text as cleaning the
escaped description. -/
theorem fixDescReplaceAll_EscapeString_comm (d : List Char) :
    EscapeString (fixDescReplaceAll d) = fixDescReplaceAll (EscapeString d) := by
  unfold fixDescReplaceAll
  exact (fixDescReplaceAllAux_EscapeString d 0 (by simp)).symm

/-- C15: for lists in which every entry is file-typed, the arguments block of
lists that are not both empty is the heading followed by newline characters
only, one per entry and the closing one; the sentence "This endpoint takes no
arguments." is in the block exactly when the two lists are both empty; and no
argument line (no text "- `") is in the block. -/
theorem GenerateArgumentsBlock_all_file (args opts : List Argument)
    (hall : ∀ a ∈ args ++ opts, a.Type_ = "file".toList) :
    (args.length + opts.length ≠ 0 →
      GenerateArgumentsBlock args opts
        = "### Arguments\n\n".toList ++ List.replicate (args.length + opts.length + 1) '\n')
    ∧ ("This endpoint takes no arguments.".toList <:+: GenerateArgumentsBlock args opts
        ↔ args.length + opts.length = 0)
    ∧ ¬ "- `".toList <:+: GenerateArgumentsBlock args opts := by
  have ha := flatMap_genArgument_all_file true args
    (fun a h => hall a (List.mem_append_left _ h))
  have ho := flatMap_genArgument_all_file false opts
    (fun a h => hall a (List.mem_append_right _ h))
  have hne : args.length + opts.length ≠ 0 →
      GenerateArgumentsBlock args opts
        = "### Arguments\n\n".toList ++ List.replicate (args.length + opts.length + 1) '\n' := by
    intro h
    have e1 : "\n".toList = List.replicate 1 '\n' := by rfl
    rw [GenerateArgumentsBlock_eq, if_neg h, ha, ho, e1]
    simp only [List.append_nil, List.append_assoc, List.append_replicate_replicate]
  have hmem : ∀ c : Char, c ≠ '\n' → c ∉ "### Arguments\n\n".toList →
      args.length + opts.length ≠ 0 → c ∉ GenerateArgumentsBlock args opts := by
    intro c hc1 hc2 h hc
    rw [hne h] at hc
    rcases List.mem_append.mp hc with h1 | h1
    · exact hc2 h1
    · exact hc1 (List.eq_of_mem_replicate h1)
  have hzero : args.length + opts.length = 0 →
      GenerateArgumentsBlock args opts
        = "### Arguments\n\nThis endpoint takes no arguments.\n\n".toList := by
    intro h
    have h1 : args = [] := List.length_eq_zero.mp (by omega)
    have h2 : opts = [] := List.length_eq_zero.mp (by omega)
    rw [h1, h2]
    rfl
  refine ⟨hne, ?_, ?_⟩
  · constructor
    · intro h
      by_contra hn
      exact hmem 'T' (by decide) (by decide) hn
        (head_mem_of_isInfix 'T' "his endpoint takes no arguments.".toList _ h)
    · intro h
      rw [hzero h]
      exact ⟨"### Arguments\n\n".toList, "\n\n".toList, by rfl⟩
  · intro h
    have h1 := head_mem_of_isInfix '-' " `".toList _ h
    by_cases hz : args.length + opts.length = 0
    · rw [hzero hz] at h1
      revert h1
      decide
    · exact hmem '-' (by decide) (by decide) hz h1

/-- C15 at a positional list of two file-typed arguments and no option: the
heading and three newline characters. -/
theorem GenerateArgumentsBlock_all_file_witness :
    GenerateArgumentsBlock [sampleFileArgument, sampleDataArgument] []
      = "### Arguments\n\n".toList
        ++ List.replicate ([sampleFileArgument, sampleDataArgument].length
            + ([] : List Argument).length + 1) '\n' :=
  (GenerateArgumentsBlock_all_file [sampleFileArgument, sampleDataArgument] []
    (by decide)).1 (by decide)

end Docs
